import Mathlib

/-
Verification development for the LossyFlowAccumulator component
(landlab/components/flow_accum/lossy_flow_accumulator.py).

The file embeds, in order:
  * the loss-function adapter built in LossyFlowAccumulator.__init__
    (arity inspection, construction-time probe, per-call float coercion);
  * the list of declared output variables of the component;
  * the lossy accumulation passes and the Braun-Willett traversal-order
    builder.  These live in the collaborator modules flow_accum_bw and
    flow_accum_to_n, whose source is not part of this tree; they are
    modelled from the specification (sections 4.2 to 4.6) as stated in
    the doc comments below;
  * the event order of accumulate_flow and the grid-field update done at
    the end of __init__.

Python floats are modelled as rationals; machine floating point is not
modelled, so all numeric statements are exact-arithmetic statements.
-/

namespace LossyFlowAccum

/-- A Python runtime value, as far as the adapter code inspects it: a
float (carrying its numeric value), an int, or any other object. -/
inductive PyVal where
  | pfloat : ℚ → PyVal
  | pint : ℤ → PyVal
  | pother : PyVal
  deriving DecidableEq

/-- Models the Python test isinstance(x, float) used by the probe. -/
def PyVal.isFloat : PyVal → Bool
  | .pfloat _ => true
  | _ => false

/-- Models the Python builtin float(x): succeeds on numeric values,
raises (returns none) on anything else. -/
def pyFloatFn : PyVal → Option PyVal
  | .pfloat q => some (.pfloat q)
  | .pint n => some (.pfloat (n : ℚ))
  | .pother => none

/-- The exception kinds raised by LossyFlowAccumulator.__init__ when
the supplied loss_function is rejected: TypeError for a failed
construction-time probe, ValueError for an unsupported parameter count.
The spec groups both under the name InvalidLossFunction. -/
inductive PyError where
  | typeError : PyError
  | valueError : PyError
  deriving DecidableEq

/-- A user-supplied loss callable, tagged by its declared positional
parameter count, exactly the quantity that len(signature(f).parameters)
reports to __init__.  Discharge arguments are floats (rationals here),
node and link ids are naturals, and the grid has an abstract type G.  The
last constructor stands for a callable whose declared parameter count
lies outside one to four; such a callable is never invoked, so no
function value is carried. -/
inductive UserLossFunc (G : Type) where
  | arity1 : (ℚ → PyVal) → UserLossFunc G
  | arity2 : (ℚ → ℕ → PyVal) → UserLossFunc G
  | arity3 : (ℚ → ℕ → ℕ → PyVal) → UserLossFunc G
  | arity4 : (ℚ → ℕ → ℕ → G → PyVal) → UserLossFunc G
  | otherArity : (n : ℕ) → (n = 0 ∨ 5 ≤ n) → UserLossFunc G

/-- The declared positional parameter count of the callable. -/
def UserLossFunc.numParams {G : Type} : UserLossFunc G → ℕ
  | .arity1 _ => 1
  | .arity2 _ => 2
  | .arity3 _ => 3
  | .arity4 _ => 4
  | .otherArity n _ => n

/-- Whether the construction-time probe of __init__ would accept the
callable: arity one is called at (1.0), arity two at (1.0, 0), arity
three at (1.0, 0, 0), and the result must be a float instance.  Arity
four is never probed. -/
def UserLossFunc.probePasses {G : Type} : UserLossFunc G → Bool
  | .arity1 u => (u 1).isFloat
  | .arity2 u => (u 1 0).isFloat
  | .arity3 u => (u 1 0 0).isFloat
  | .arity4 _ => true
  | .otherArity _ _ => true

/-- The normalized adapter stored as self._lossfunc: a four-argument
function from (discharge, node, link, grid) to a Python value; the
result is an Option because the per-call float(...) coercion in the
arity one to three wrappers can raise on a non-numeric return. -/
def LossAdapter (G : Type) : Type := ℚ → ℕ → ℕ → G → Option PyVal

/-- The loss_function handling of LossyFlowAccumulator.__init__: arity
dispatch, construction-time probe for arities one to three, wrapper
construction with per-call float coercion, the identity adapter when no
loss_function is given, and the two error exits. -/
def mkLossAdapter {G : Type} : Option (UserLossFunc G) → Except PyError (LossAdapter G)
  | none => .ok (fun Qw _ _ _ => some (.pfloat Qw))
  | some (.arity1 u) =>
      if (u 1).isFloat then .ok (fun Qw _ _ _ => pyFloatFn (u Qw))
      else .error .typeError
  | some (.arity2 u) =>
      if (u 1 0).isFloat then .ok (fun Qw n _ _ => pyFloatFn (u Qw n))
      else .error .typeError
  | some (.arity3 u) =>
      if (u 1 0 0).isFloat then .ok (fun Qw n l _ => pyFloatFn (u Qw n l))
      else .error .typeError
  | some (.arity4 u) => .ok (fun Qw n l g => some (u Qw n l g))
  | some (.otherArity _ _) => .error .valueError

/-- Runs the adapter produced by a construction attempt; a failed
construction has no adapter to run. -/
def runLossAdapter {G : Type} (res : Except PyError (LossAdapter G))
    (Qw : ℚ) (n l : ℕ) (g : G) : Option PyVal :=
  match res with
  | .ok f => f Qw n l g
  | .error _ => none

/-- Whether a construction attempt raised. -/
def isErr {G : Type} : Except PyError (LossAdapter G) → Bool
  | .error _ => true
  | .ok _ => false

/-- The _output_var_names tuple declared on LossyFlowAccumulator. -/
def output_var_names : List String :=
  ["drainage_area",
   "surface_water__discharge",
   "surface_water__discharge_loss",
   "flow__upstream_node_order",
   "flow__nodes_not_in_stack",
   "flow__data_structure_delta",
   "flow__data_structure_D"]

/-- The per-run state of an accumulation pass: the accumulated
discharge q, the accumulated drainage area a, and the recorded loss L
(the surface_water__discharge_loss node field). -/
structure AccState where
  q : ℕ → ℚ
  a : ℕ → ℚ
  L : ℕ → ℚ

/-- Modelled from the spec: section 4.5 step 1 of the lossy
accumulation pass of flow_accum_bw (source not in this tree).  Local
generation: q starts at external input times cell area, a at cell area,
and the loss field at zero. -/
def initState (Acell I : ℕ → ℚ) : AccState :=
  { q := fun i => I i * Acell i
    a := fun i => Acell i
    L := fun _ => 0 }

/-- Modelled from the spec: section 4.5 step 2, the per-node body of
find_drainage_area_and_discharge_lossy of flow_accum_bw (source not in
this tree).  For a node d with receiver r d different from d: the loss
adapter f is applied once to the discharge accumulated at d, the loss
field at d records the difference, and the adjusted outflow and the
unadjusted area are handed to the receiver.  A terminal node (its own
receiver) is left untouched. -/
def accumStepOne {G : Type} (f : ℚ → ℕ → ℕ → G → ℚ) (g : G)
    (r link : ℕ → ℕ) (st : AccState) (d : ℕ) : AccState :=
  if r d = d then st
  else
    { q := fun j => if j = r d then st.q j + f (st.q d) d (link d) g else st.q j
      a := fun j => if j = r d then st.a j + st.a d else st.a j
      L := fun j => if j = d then st.q d - f (st.q d) d (link d) g else st.L j }

/-- Modelled from the spec: the single-receiver lossy accumulation pass
(section 4.5).  The stack s lists nodes downstream first; the pass
walks it in reverse, most upstream node first. -/
def runAccumOne {G : Type} (f : ℚ → ℕ → ℕ → G → ℚ) (g : G)
    (r link : ℕ → ℕ) (Acell I : ℕ → ℚ) (s : List ℕ) : AccState :=
  s.reverse.foldl (accumStepOne f g r link) (initState Acell I)

/-- Modelled from the spec: the receiver slots of node d that carry a
real transfer in multi-receiver mode, that is slots with positive
proportion whose receiver is not d itself (sections 4.3 and 4.6). -/
def activeSlots (K : ℕ) (r : ℕ → ℕ → ℕ) (p : ℕ → ℕ → ℚ) (d : ℕ) : List ℕ :=
  (List.range K).filter fun k => decide (0 < p d k) && decide (r d k ≠ d)

/-- Modelled from the spec: section 4.6, the per-node body of
find_drainage_area_and_discharge_to_n_lossy of flow_accum_to_n (source
not in this tree).  For each active slot k the adapter is applied to
the proportion-weighted discharge, each receiver gains its adjusted
outflow and proportion-weighted area, and the loss field at d records
the accumulated discharge minus the sum of the adjusted outflows.  A
node with no active slot is left untouched. -/
def accumStepMany {G : Type} (K : ℕ) (f : ℚ → ℕ → ℕ → G → ℚ) (g : G)
    (r link : ℕ → ℕ → ℕ) (p : ℕ → ℕ → ℚ) (st : AccState) (d : ℕ) : AccState :=
  let ks := activeSlots K r p d
  if ks.isEmpty then st
  else
    { q := fun j => st.q j +
        ((ks.filter fun k => decide (r d k = j)).map
          fun k => f (st.q d * p d k) d (link d k) g).sum
      a := fun j => st.a j +
        ((ks.filter fun k => decide (r d k = j)).map
          fun k => st.a d * p d k).sum
      L := fun j => if j = d then
          st.q d - (ks.map fun k => f (st.q d * p d k) d (link d k) g).sum
        else st.L j }

/-- Modelled from the spec: the multi-receiver lossy accumulation pass
(section 4.6), walking the stack in reverse like the single-receiver
pass. -/
def runAccumMany {G : Type} (K : ℕ) (f : ℚ → ℕ → ℕ → G → ℚ) (g : G)
    (r link : ℕ → ℕ → ℕ) (p : ℕ → ℕ → ℚ) (Acell I : ℕ → ℚ) (s : List ℕ) : AccState :=
  s.reverse.foldl (accumStepMany K f g r link p) (initState Acell I)

/-- The identity loss adapter installed when no loss_function is
supplied. -/
def identityLoss {G : Type} : ℚ → ℕ → ℕ → G → ℚ := fun qw _ _ _ => qw

/-- Modelled from the spec: the donors of node l in the single-receiver
donor topology, the contiguous block D[delta[l] : delta[l+1]] of the
Braun-Willett structure of flow_accum_bw (source not in this tree),
self-loop entries excluded as in the traversal recursion
(section 4.4). -/
def donorsOf (N : ℕ) (r : ℕ → ℕ) (l : ℕ) : List ℕ :=
  (List.range N).filter fun m => decide (r m = l) && decide (m ≠ l)

/-- The terminal nodes: those that are their own receiver. -/
def baselevelNodes (N : ℕ) (r : ℕ → ℕ) : List ℕ :=
  (List.range N).filter fun i => decide (r i = i)

/-- Modelled from the spec: the work loop of the traversal-order
builder (section 4.4).  Pop a pending node, emit it onto the stack,
push its donors.  The fuel argument bounds the number of pops; every
pop emits one stack entry, and the stack can never exceed N distinct
nodes, so N + 1 units of fuel drain any pending list this builder can
reach. -/
def bwTraverse (N : ℕ) (r : ℕ → ℕ) : ℕ → List ℕ → List ℕ → List ℕ
  | 0, _, stack => stack
  | _ + 1, [], stack => stack
  | fuel + 1, l :: pend, stack =>
      bwTraverse N r fuel (donorsOf N r l ++ pend) (stack ++ [l])

/-- Modelled from the spec: make_ordered_node_array of flow_accum_bw
(source not in this tree), seeding the traversal with the terminal
nodes in ascending id order (section 4.4). -/
def make_ordered_node_array (N : ℕ) (r : ℕ → ℕ) : List ℕ :=
  bwTraverse N r (N + 1) (baselevelNodes N r) []

/-- Modelled from the spec: the count of nodes the traversal-order
build failed to visit, the quantity behind the declared output
flow__nodes_not_in_stack. -/
def unvisitedCount (N : ℕ) (r : ℕ → ℕ) : ℕ :=
  N - (make_ordered_node_array N r).length

/-- The externally visible steps of one accumulate_flow call. -/
inductive FlowEvent where
  | runFlowDirector : FlowEvent
  | mapDepressions : FlowEvent
  | buildDonorsDeltaStack : FlowEvent
  | accumulatePass : FlowEvent
  deriving DecidableEq

/-- Whether the flow director routes each node to one receiver or to
many (self.flow_director.to_n_receivers). -/
inductive RouteMode where
  | toOne : RouteMode
  | toMany : RouteMode
  deriving DecidableEq

/-- The order of steps executed by accumulate_flow, read off the source:
the director runs first when requested; on the to-one path the
depression finder (when provided) runs before the donor, delta and
stack construction, which precedes the accumulation pass; on the
to-many path the depression finder call is absent (commented out in the
source). -/
def accumulateFlowTrace (mode : RouteMode) (dfProvided updateFD : Bool) : List FlowEvent :=
  (if updateFD then [FlowEvent.runFlowDirector] else []) ++
    match mode with
    | .toOne =>
        (if dfProvided then [FlowEvent.mapDepressions] else []) ++
          [FlowEvent.buildDonorsDeltaStack, FlowEvent.accumulatePass]
    | .toMany => [FlowEvent.buildDonorsDeltaStack, FlowEvent.accumulatePass]

/-- The name of the loss field created at the end of __init__. -/
def swdLossField : String := "surface_water__discharge_loss"

/-- The loss-specific tail of LossyFlowAccumulator.__init__: build the
adapter (possibly raising), then add_zeros the node field
surface_water__discharge_loss with noclobber False, which overwrites
any existing field of that name with N zeros and touches nothing
else.  Grid fields are modelled as a map from field name to stored
array. -/
def lossyInitLossPart {G : Type} (N : ℕ) (lf : Option (UserLossFunc G))
    (gf : String → Option (List ℚ)) :
    Except PyError (LossAdapter G × (String → Option (List ℚ))) :=
  match mkLossAdapter lf with
  | .error e => .error e
  | .ok f =>
      .ok (f, fun s => if s = swdLossField then some (List.replicate N 0) else gf s)

/-- Concrete five-node line from the spec test scenarios: receivers
[1, 2, 3, 4, 4], node 4 terminal and without a cell. -/
def rLine : ℕ → ℕ := fun i => if i < 4 then i + 1 else 4

/-- Link ids for the line; not interpreted by the engine. -/
def linkLine : ℕ → ℕ := fun i => i

/-- Cell areas [1, 1, 1, 1, 0] for the line. -/
def AcellLine : ℕ → ℚ := fun i => if i < 4 then 1 else 0

/-- External inputs [1, 1, 1, 1, 0] for the line. -/
def ILine : ℕ → ℚ := fun i => if i < 4 then 1 else 0

/-- Downstream-to-upstream stack for the line. -/
def sLine : List ℕ := [4, 3, 2, 1, 0]

/-- The half-loss adapter of the spec scenario. -/
def halfLoss {G : Type} : ℚ → ℕ → ℕ → G → ℚ := fun qw _ _ _ => qw / 2

/-- Concrete multi-receiver scenario from the spec: node 0 splits half
and half to terminal nodes 1 and 2. -/
def rSplit : ℕ → ℕ → ℕ := fun i k =>
  if i = 0 then (if k = 0 then 1 else 2) else i

/-- Proportions for the split scenario: node 0 sends half to each slot,
terminal nodes carry the self slot with proportion one. -/
def pSplit : ℕ → ℕ → ℚ := fun i k =>
  if i = 0 then mkRat 1 2 else if k = 0 then 1 else 0

/-- Link ids for the split scenario. -/
def linkSplit : ℕ → ℕ → ℕ := fun i k => 2 * i + k

/-- Cell areas [2, 0, 0] for the split scenario. -/
def AcellSplit : ℕ → ℚ := fun i => if i = 0 then 2 else 0

/-- External inputs [1, 0, 0] for the split scenario. -/
def ISplit : ℕ → ℚ := fun i => if i = 0 then 1 else 0

/-- Downstream-to-upstream stack for the split scenario, including the
isolated terminal node 3 (no cell, no donors). -/
def sSplit : List ℕ := [1, 2, 3, 0]

/-- The two-node cycle of the spec scenario: node 0 and node 1 point at
each other, neither terminal. -/
def rCycle : ℕ → ℕ := fun i => if i = 0 then 1 else if i = 1 then 0 else i

/-- An example grid-field map used by witnesses. -/
def gfEx : String → Option (List ℚ) := fun s =>
  if s = "surface_water__discharge_loss" then some [5, 5, 5] else none

/-- A three-node example: node 0 drains to terminal node 1, node 2 is
an isolated terminal without a cell and without donors. -/
def rIso : ℕ → ℕ := fun e => if e = 0 then 1 else e

/-- Link ids for the isolated-node example. -/
def linkIso : ℕ → ℕ := fun e => e

/-- Cell areas for the isolated-node example: node 2 has no cell. -/
def AcellIso : ℕ → ℚ := fun e => if e = 2 then 0 else 1

/-- Uniform unit external input for the isolated-node example. -/
def IIso : ℕ → ℚ := fun _ => 1

/-- Downstream-to-upstream stack for the isolated-node example. -/
def sIso : List ℕ := [1, 2, 0]

/-- Invariant of the traversal work loop: the emitted stack holds
distinct valid node ids closed under receivers, and every pending node
is a valid id not yet emitted whose receiver is itself or already
emitted. -/
def TravInv (N : ℕ) (r : ℕ → ℕ) (pend stack : List ℕ) : Prop :=
  stack.Nodup ∧ pend.Nodup ∧
    (∀ x ∈ pend, x < N ∧ x ∉ stack ∧ (r x = x ∨ r x ∈ stack)) ∧
    (∀ x ∈ stack, x < N ∧ r x ∈ stack)

/-- C4: for a user loss function of declared arity one, two or three
that passes the construction-time probe, the normalized adapter applies
the callable to the leading arguments only and coerces the result with
float; the trailing arguments are ignored and the variant is selected
by the declared parameter count alone. -/
theorem loss_adapter_arity_dispatch {G : Type}
    (u1 : ℚ → PyVal) (u2 : ℚ → ℕ → PyVal) (u3 : ℚ → ℕ → ℕ → PyVal)
    (Qw : ℚ) (n l : ℕ) (g : G)
    (h1 : (u1 1).isFloat = true) (h2 : (u2 1 0).isFloat = true)
    (h3 : (u3 1 0 0).isFloat = true) :
    runLossAdapter (mkLossAdapter (some (UserLossFunc.arity1 u1))) Qw n l g
        = pyFloatFn (u1 Qw)
    ∧ runLossAdapter (mkLossAdapter (some (UserLossFunc.arity2 u2))) Qw n l g
        = pyFloatFn (u2 Qw n)
    ∧ runLossAdapter (mkLossAdapter (some (UserLossFunc.arity3 u3))) Qw n l g
        = pyFloatFn (u3 Qw n l) := by
  refine ⟨?_, ?_, ?_⟩ <;> simp [mkLossAdapter, runLossAdapter, h1, h2, h3]

/-- Witness for C4 at concrete callables and arguments. -/
theorem loss_adapter_arity_dispatch_witness :
    runLossAdapter (mkLossAdapter (G := Unit)
        (some (UserLossFunc.arity1 fun q => PyVal.pfloat q))) 2 5 7 ()
        = pyFloatFn (PyVal.pfloat 2)
    ∧ runLossAdapter (mkLossAdapter (G := Unit)
        (some (UserLossFunc.arity2 fun q n => PyVal.pfloat (q + n)))) 2 5 7 ()
        = pyFloatFn (PyVal.pfloat (2 + (5 : ℕ)))
    ∧ runLossAdapter (mkLossAdapter (G := Unit)
        (some (UserLossFunc.arity3 fun q _ _ => PyVal.pfloat q))) 2 5 7 ()
        = pyFloatFn (PyVal.pfloat 2) :=
  loss_adapter_arity_dispatch (fun q => PyVal.pfloat q)
    (fun q n => PyVal.pfloat (q + n)) (fun q _ _ => PyVal.pfloat q)
    2 5 7 () rfl rfl rfl

/-- C5: construction with a supplied loss function raises exactly when
the declared parameter count is outside one to four, or the count is
one to three and the construction-time probe does not return a float;
otherwise an adapter is produced.  The source raises ValueError in the
first case and TypeError in the second; the spec names both
InvalidLossFunction. -/
theorem loss_function_rejection_iff {G : Type} (u : UserLossFunc G) :
    isErr (mkLossAdapter (some u)) = true ↔
      ((u.numParams = 0 ∨ 5 ≤ u.numParams) ∨
        ((u.numParams = 1 ∨ u.numParams = 2 ∨ u.numParams = 3)
          ∧ u.probePasses = false)) := by
  cases u with
  | arity1 u =>
      by_cases h : (u 1).isFloat <;>
        simp [mkLossAdapter, isErr, UserLossFunc.numParams, UserLossFunc.probePasses, h]
  | arity2 u =>
      by_cases h : (u 1 0).isFloat <;>
        simp [mkLossAdapter, isErr, UserLossFunc.numParams, UserLossFunc.probePasses, h]
  | arity3 u =>
      by_cases h : (u 1 0 0).isFloat <;>
        simp [mkLossAdapter, isErr, UserLossFunc.numParams, UserLossFunc.probePasses, h]
  | arity4 u =>
      simp [mkLossAdapter, isErr, UserLossFunc.numParams, UserLossFunc.probePasses]
  | otherArity n hn =>
      simp only [mkLossAdapter, isErr, UserLossFunc.numParams, UserLossFunc.probePasses]
      simpa using hn

/-- C7: a callable of declared arity four is stored as the adapter
unchanged: no construction-time probe runs (construction succeeds for
every such callable, whatever it returns) and its per-call return value
is passed through without the float coercion the lower-arity wrappers
apply. -/
theorem arity_four_loss_function_used_as_is {G : Type} (u : ℚ → ℕ → ℕ → G → PyVal) :
    mkLossAdapter (some (UserLossFunc.arity4 u))
      = Except.ok (fun Qw n l g => some (u Qw n l g)) := rfl

/-- C9: the loss-specific tail of construction recreates the node field
surface_water__discharge_loss as N zeros, overwriting any prior content
(noclobber is False), for any supplied loss_function option, and leaves
every other grid field untouched. -/
theorem swd_loss_field_reset {G : Type} (N : ℕ) (lf : Option (UserLossFunc G))
    (gf : String → Option (List ℚ)) (ad : LossAdapter G)
    (gf2 : String → Option (List ℚ))
    (h : lossyInitLossPart N lf gf = .ok (ad, gf2))
    (s : String) (hs : s ≠ swdLossField) :
    gf2 swdLossField = some (List.replicate N 0) ∧ gf2 s = gf s := by
  unfold lossyInitLossPart at h
  cases hm : mkLossAdapter lf with
  | error e => rw [hm] at h; exact absurd h (by simp)
  | ok f =>
      rw [hm] at h
      have h2 := (Except.ok.injEq _ _).mp h
      have hgf2 : gf2 = fun t => if t = swdLossField
          then some (List.replicate N 0) else gf t :=
        (congrArg Prod.snd h2).symm
      constructor
      · rw [hgf2]; simp
      · rw [hgf2]; simp [hs]

/-- Witness for C9: a grid that already holds a stale loss field of
length three gets it overwritten with zeros while another field name is
untouched. -/
theorem swd_loss_field_reset_witness :
    (fun t => if t = swdLossField then some (List.replicate 3 (0 : ℚ)) else gfEx t)
        swdLossField = some (List.replicate 3 (0 : ℚ))
    ∧ (fun t => if t = swdLossField then some (List.replicate 3 (0 : ℚ)) else gfEx t)
        "drainage_area" = gfEx "drainage_area" :=
  swd_loss_field_reset 3 (none (α := UserLossFunc Unit)) gfEx _ _ rfl
    "drainage_area" (by decide)

theorem accumStepOne_L_other {G : Type} (f : ℚ → ℕ → ℕ → G → ℚ) (g : G)
    (r link : ℕ → ℕ) (st : AccState) (e d : ℕ) (hde : d ≠ e) :
    (accumStepOne f g r link st e).L d = st.L d := by
  unfold accumStepOne
  by_cases h : r e = e <;> simp [h, hde]

theorem accumStepOne_q_other {G : Type} (f : ℚ → ℕ → ℕ → G → ℚ) (g : G)
    (r link : ℕ → ℕ) (st : AccState) (e d : ℕ) (h : r e = e ∨ r e ≠ d) :
    (accumStepOne f g r link st e).q d = st.q d := by
  unfold accumStepOne
  rcases h with h | h
  · simp [h]
  · by_cases he : r e = e <;> simp [he, Ne.symm h]

theorem accumStepOne_a_other {G : Type} (f : ℚ → ℕ → ℕ → G → ℚ) (g : G)
    (r link : ℕ → ℕ) (st : AccState) (e d : ℕ) (h : r e = e ∨ r e ≠ d) :
    (accumStepOne f g r link st e).a d = st.a d := by
  unfold accumStepOne
  rcases h with h | h
  · simp [h]
  · by_cases he : r e = e <;> simp [he, Ne.symm h]

theorem foldOne_L_stable {G : Type} (f : ℚ → ℕ → ℕ → G → ℚ) (g : G)
    (r link : ℕ → ℕ) :
    ∀ (ps : List ℕ) (st : AccState) (d : ℕ), d ∉ ps →
      (ps.foldl (accumStepOne f g r link) st).L d = st.L d := by
  intro ps
  induction ps with
  | nil => intro st d _; rfl
  | cons e rest ih =>
      intro st d hd
      simp only [List.mem_cons, not_or] at hd
      rw [List.foldl_cons, ih _ _ hd.2]
      exact accumStepOne_L_other f g r link st e d hd.1

theorem foldOne_q_stable {G : Type} (f : ℚ → ℕ → ℕ → G → ℚ) (g : G)
    (r link : ℕ → ℕ) :
    ∀ (ps : List ℕ) (st : AccState) (d : ℕ), (∀ e ∈ ps, r e = e ∨ r e ≠ d) →
      (ps.foldl (accumStepOne f g r link) st).q d = st.q d := by
  intro ps
  induction ps with
  | nil => intro st d _; rfl
  | cons e rest ih =>
      intro st d hd
      rw [List.foldl_cons, ih _ _ fun x hx => hd x (List.mem_cons_of_mem e hx)]
      exact accumStepOne_q_other f g r link st e d (hd e (List.mem_cons_self e rest))

theorem foldOne_a_stable {G : Type} (f : ℚ → ℕ → ℕ → G → ℚ) (g : G)
    (r link : ℕ → ℕ) :
    ∀ (ps : List ℕ) (st : AccState) (d : ℕ), (∀ e ∈ ps, r e = e ∨ r e ≠ d) →
      (ps.foldl (accumStepOne f g r link) st).a d = st.a d := by
  intro ps
  induction ps with
  | nil => intro st d _; rfl
  | cons e rest ih =>
      intro st d hd
      rw [List.foldl_cons, ih _ _ fun x hx => hd x (List.mem_cons_of_mem e hx)]
      exact accumStepOne_a_other f g r link st e d (hd e (List.mem_cons_self e rest))

theorem foldOne_L_spec {G : Type} (f : ℚ → ℕ → ℕ → G → ℚ) (g : G)
    (r link : ℕ → ℕ) :
    ∀ (ps : List ℕ) (st : AccState), ps.Nodup →
      ps.Pairwise (fun x y => r y ≠ x) →
      ∀ d ∈ ps, r d ≠ d →
        (ps.foldl (accumStepOne f g r link) st).L d
          = (ps.foldl (accumStepOne f g r link) st).q d
            - f ((ps.foldl (accumStepOne f g r link) st).q d) d (link d) g := by
  intro ps
  induction ps with
  | nil => intro st _ _ d hd; simp at hd
  | cons e rest ih =>
      intro st hnd hpw d hd hrd
      rw [List.nodup_cons] at hnd
      rw [List.pairwise_cons] at hpw
      rcases List.mem_cons.mp hd with he | hrest
      · subst he
        rw [List.foldl_cons]
        have hq : (rest.foldl (accumStepOne f g r link) (accumStepOne f g r link st d)).q d
            = (accumStepOne f g r link st d).q d :=
          foldOne_q_stable f g r link rest _ d fun x hx => Or.inr (hpw.1 x hx)
        have hL : (rest.foldl (accumStepOne f g r link) (accumStepOne f g r link st d)).L d
            = (accumStepOne f g r link st d).L d :=
          foldOne_L_stable f g r link rest _ d hnd.1
        rw [hL, hq]
        have hne : d ≠ r d := fun h => hrd h.symm
        unfold accumStepOne
        simp [hrd, hne]
      · rw [List.foldl_cons]
        exact ih _ hnd.2 hpw.2 d hrest hrd

theorem activeSlots_mem {K : ℕ} {r : ℕ → ℕ → ℕ} {p : ℕ → ℕ → ℚ} {d k : ℕ}
    (hk : k ∈ activeSlots K r p d) : k < K ∧ 0 < p d k ∧ r d k ≠ d := by
  simp only [activeSlots, List.mem_filter, List.mem_range, Bool.and_eq_true,
    decide_eq_true_eq] at hk
  exact ⟨hk.1, hk.2.1, hk.2.2⟩

theorem accumStepMany_L_other {G : Type} (K : ℕ) (f : ℚ → ℕ → ℕ → G → ℚ) (g : G)
    (r link : ℕ → ℕ → ℕ) (p : ℕ → ℕ → ℚ) (st : AccState) (e d : ℕ) (hde : d ≠ e) :
    (accumStepMany K f g r link p st e).L d = st.L d := by
  unfold accumStepMany
  by_cases h : (activeSlots K r p e).isEmpty <;> simp [h, hde]

theorem accumStepMany_q_other {G : Type} (K : ℕ) (f : ℚ → ℕ → ℕ → G → ℚ) (g : G)
    (r link : ℕ → ℕ → ℕ) (p : ℕ → ℕ → ℚ) (st : AccState) (e d : ℕ)
    (h : ∀ k ∈ activeSlots K r p e, r e k ≠ d) :
    (accumStepMany K f g r link p st e).q d = st.q d := by
  unfold accumStepMany
  by_cases hk : (activeSlots K r p e).isEmpty
  · simp [hk]
  · have hfil : (activeSlots K r p e).filter (fun k => decide (r e k = d)) = [] :=
      List.filter_eq_nil_iff.mpr fun k hkm => by simpa using h k hkm
    simp [hk, hfil]

theorem accumStepMany_a_other {G : Type} (K : ℕ) (f : ℚ → ℕ → ℕ → G → ℚ) (g : G)
    (r link : ℕ → ℕ → ℕ) (p : ℕ → ℕ → ℚ) (st : AccState) (e d : ℕ)
    (h : ∀ k ∈ activeSlots K r p e, r e k ≠ d) :
    (accumStepMany K f g r link p st e).a d = st.a d := by
  unfold accumStepMany
  by_cases hk : (activeSlots K r p e).isEmpty
  · simp [hk]
  · have hfil : (activeSlots K r p e).filter (fun k => decide (r e k = d)) = [] :=
      List.filter_eq_nil_iff.mpr fun k hkm => by simpa using h k hkm
    simp [hk, hfil]

theorem foldMany_L_stable {G : Type} (K : ℕ) (f : ℚ → ℕ → ℕ → G → ℚ) (g : G)
    (r link : ℕ → ℕ → ℕ) (p : ℕ → ℕ → ℚ) :
    ∀ (ps : List ℕ) (st : AccState) (d : ℕ), d ∉ ps →
      (ps.foldl (accumStepMany K f g r link p) st).L d = st.L d := by
  intro ps
  induction ps with
  | nil => intro st d _; rfl
  | cons e rest ih =>
      intro st d hd
      simp only [List.mem_cons, not_or] at hd
      rw [List.foldl_cons, ih _ _ hd.2]
      exact accumStepMany_L_other K f g r link p st e d hd.1

theorem foldMany_q_stable {G : Type} (K : ℕ) (f : ℚ → ℕ → ℕ → G → ℚ) (g : G)
    (r link : ℕ → ℕ → ℕ) (p : ℕ → ℕ → ℚ) :
    ∀ (ps : List ℕ) (st : AccState) (d : ℕ),
      (∀ e ∈ ps, ∀ k ∈ activeSlots K r p e, r e k ≠ d) →
      (ps.foldl (accumStepMany K f g r link p) st).q d = st.q d := by
  intro ps
  induction ps with
  | nil => intro st d _; rfl
  | cons e rest ih =>
      intro st d hd
      rw [List.foldl_cons, ih _ _ fun x hx => hd x (List.mem_cons_of_mem e hx)]
      exact accumStepMany_q_other K f g r link p st e d (hd e (List.mem_cons_self e rest))

theorem foldMany_a_stable {G : Type} (K : ℕ) (f : ℚ → ℕ → ℕ → G → ℚ) (g : G)
    (r link : ℕ → ℕ → ℕ) (p : ℕ → ℕ → ℚ) :
    ∀ (ps : List ℕ) (st : AccState) (d : ℕ),
      (∀ e ∈ ps, ∀ k ∈ activeSlots K r p e, r e k ≠ d) →
      (ps.foldl (accumStepMany K f g r link p) st).a d = st.a d := by
  intro ps
  induction ps with
  | nil => intro st d _; rfl
  | cons e rest ih =>
      intro st d hd
      rw [List.foldl_cons, ih _ _ fun x hx => hd x (List.mem_cons_of_mem e hx)]
      exact accumStepMany_a_other K f g r link p st e d (hd e (List.mem_cons_self e rest))

theorem foldMany_L_spec {G : Type} (K : ℕ) (f : ℚ → ℕ → ℕ → G → ℚ) (g : G)
    (r link : ℕ → ℕ → ℕ) (p : ℕ → ℕ → ℚ) :
    ∀ (ps : List ℕ) (st : AccState), ps.Nodup →
      ps.Pairwise (fun x y => ∀ k ∈ activeSlots K r p y, r y k ≠ x) →
      ∀ d ∈ ps, activeSlots K r p d ≠ [] →
        (ps.foldl (accumStepMany K f g r link p) st).L d
          = (ps.foldl (accumStepMany K f g r link p) st).q d
            - ((activeSlots K r p d).map fun k =>
                f ((ps.foldl (accumStepMany K f g r link p) st).q d * p d k)
                  d (link d k) g).sum := by
  intro ps
  induction ps with
  | nil => intro st _ _ d hd; simp at hd
  | cons e rest ih =>
      intro st hnd hpw d hd hact
      rw [List.nodup_cons] at hnd
      rw [List.pairwise_cons] at hpw
      rcases List.mem_cons.mp hd with he | hrest
      · subst he
        rw [List.foldl_cons]
        have hown : ∀ k ∈ activeSlots K r p d, r d k ≠ d :=
          fun k hk => (activeSlots_mem hk).2.2
        have hq : (rest.foldl (accumStepMany K f g r link p)
              (accumStepMany K f g r link p st d)).q d
            = (accumStepMany K f g r link p st d).q d :=
          foldMany_q_stable K f g r link p rest _ d fun x hx => hpw.1 x hx
        have hL : (rest.foldl (accumStepMany K f g r link p)
              (accumStepMany K f g r link p st d)).L d
            = (accumStepMany K f g r link p st d).L d :=
          foldMany_L_stable K f g r link p rest _ d hnd.1
        have hqd : (accumStepMany K f g r link p st d).q d = st.q d :=
          accumStepMany_q_other K f g r link p st d d hown
        have hke : (activeSlots K r p d).isEmpty = false := by
          cases hks : activeSlots K r p d with
          | nil => exact absurd hks hact
          | cons a t => rfl
        rw [hL, hq, hqd]
        unfold accumStepMany
        simp [hke]
      · rw [List.foldl_cons]
        exact ih _ hnd.2 hpw.2 d hrest hact

theorem activeSlots_eq_of_no_self {K : ℕ} {r : ℕ → ℕ → ℕ} {p : ℕ → ℕ → ℚ} {d : ℕ}
    (h : ∀ k, k < K → 0 < p d k → r d k ≠ d) :
    activeSlots K r p d = (List.range K).filter fun k => decide (0 < p d k) := by
  unfold activeSlots
  refine List.filter_congr ?_
  intro k hk
  rw [List.mem_range] at hk
  by_cases hp : 0 < p d k
  · simp [hp, h k hk hp]
  · simp [hp]

/-- C1: conservation with loss.  In single-receiver mode the recorded
loss at a non-terminal node d equals the discharge accumulated at d
minus the loss-adjusted outflow f applied to it; in multi-receiver mode
it equals the accumulated discharge minus the sum of the adjusted
outflows over the positive-proportion slots, for a node whose positive
slots all carry a real (non-self) transfer.  The stack hypotheses say
that the stack holds each node once and lists receivers before their
donors, which any valid downstream-to-upstream order satisfies. -/
theorem accumulate_flow_conservation_with_loss {G : Type}
    (f : ℚ → ℕ → ℕ → G → ℚ) (g : G)
    (r link : ℕ → ℕ) (Acell I : ℕ → ℚ) (s : List ℕ)
    (hnd : s.Nodup) (hpw : s.Pairwise fun x y => r x ≠ y)
    (d : ℕ) (hd : d ∈ s) (hrd : r d ≠ d)
    (K : ℕ) (r2 link2 : ℕ → ℕ → ℕ) (p : ℕ → ℕ → ℚ) (Acell2 I2 : ℕ → ℚ)
    (s2 : List ℕ) (hnd2 : s2.Nodup)
    (hpw2 : s2.Pairwise fun x y => ∀ k ∈ activeSlots K r2 p x, r2 x k ≠ y)
    (d2 : ℕ) (hd2 : d2 ∈ s2)
    (hsel : ∀ k, k < K → 0 < p d2 k → r2 d2 k ≠ d2)
    (hact : activeSlots K r2 p d2 ≠ []) :
    ((runAccumOne f g r link Acell I s).L d
        = (runAccumOne f g r link Acell I s).q d
          - f ((runAccumOne f g r link Acell I s).q d) d (link d) g)
    ∧ ((runAccumMany K f g r2 link2 p Acell2 I2 s2).L d2
        = (runAccumMany K f g r2 link2 p Acell2 I2 s2).q d2
          - (((List.range K).filter fun k => decide (0 < p d2 k)).map fun k =>
              f ((runAccumMany K f g r2 link2 p Acell2 I2 s2).q d2 * p d2 k)
                d2 (link2 d2 k) g).sum) := by
  constructor
  · exact foldOne_L_spec f g r link s.reverse (initState Acell I)
      (List.nodup_reverse.mpr hnd) (List.pairwise_reverse.mpr hpw)
      d (List.mem_reverse.mpr hd) hrd
  · have h := foldMany_L_spec K f g r2 link2 p s2.reverse (initState Acell2 I2)
      (List.nodup_reverse.mpr hnd2) (List.pairwise_reverse.mpr hpw2)
      d2 (List.mem_reverse.mpr hd2) hact
    rw [activeSlots_eq_of_no_self hsel] at h
    exact h

/-- Witness for C1 on the two spec scenarios: the five-node line with
the half-loss function (node 2), and the three-way split grid with node
0 sending half each to nodes 1 and 2. -/
theorem accumulate_flow_conservation_with_loss_witness :
    ((runAccumOne (halfLoss (G := Unit)) () rLine linkLine AcellLine ILine sLine).L 2
        = (runAccumOne (halfLoss (G := Unit)) () rLine linkLine AcellLine ILine sLine).q 2
          - halfLoss
              ((runAccumOne (halfLoss (G := Unit)) () rLine linkLine AcellLine ILine sLine).q 2)
              2 (linkLine 2) ())
    ∧ ((runAccumMany 2 (halfLoss (G := Unit)) () rSplit linkSplit pSplit AcellSplit ISplit sSplit).L 0
        = (runAccumMany 2 (halfLoss (G := Unit)) () rSplit linkSplit pSplit AcellSplit ISplit sSplit).q 0
          - (((List.range 2).filter fun k => decide (0 < pSplit 0 k)).map fun k =>
              halfLoss
                ((runAccumMany 2 (halfLoss (G := Unit)) () rSplit linkSplit pSplit AcellSplit ISplit sSplit).q 0
                  * pSplit 0 k)
                0 (linkSplit 0 k) ()).sum) :=
  accumulate_flow_conservation_with_loss halfLoss () rLine linkLine AcellLine ILine
    sLine (by decide) (by decide) 2 (by decide) (by decide)
    2 rSplit linkSplit pSplit AcellSplit ISplit sSplit (by decide) (by decide)
    0 (by decide) (by decide) (by decide)

theorem accumStepOne_a_indep {G : Type} (f f2 : ℚ → ℕ → ℕ → G → ℚ) (g : G)
    (r link : ℕ → ℕ) (st st2 : AccState) (ha : ∀ j, st.a j = st2.a j) (e : ℕ) :
    ∀ j, (accumStepOne f g r link st e).a j = (accumStepOne f2 g r link st2 e).a j := by
  intro j
  unfold accumStepOne
  by_cases h : r e = e <;> simp [h, ha]

theorem foldOne_a_indep {G : Type} (f f2 : ℚ → ℕ → ℕ → G → ℚ) (g : G)
    (r link : ℕ → ℕ) :
    ∀ (ps : List ℕ) (st st2 : AccState), (∀ j, st.a j = st2.a j) →
      ∀ j, (ps.foldl (accumStepOne f g r link) st).a j
        = (ps.foldl (accumStepOne f2 g r link) st2).a j := by
  intro ps
  induction ps with
  | nil => intro st st2 ha j; exact ha j
  | cons e rest ih =>
      intro st st2 ha j
      rw [List.foldl_cons, List.foldl_cons]
      exact ih _ _ (accumStepOne_a_indep f f2 g r link st st2 ha e) j

theorem accumStepMany_a_indep {G : Type} (K : ℕ) (f f2 : ℚ → ℕ → ℕ → G → ℚ)
    (g : G) (r link : ℕ → ℕ → ℕ) (p : ℕ → ℕ → ℚ) (st st2 : AccState)
    (ha : ∀ j, st.a j = st2.a j) (e : ℕ) :
    ∀ j, (accumStepMany K f g r link p st e).a j
      = (accumStepMany K f2 g r link p st2 e).a j := by
  intro j
  unfold accumStepMany
  by_cases h : (activeSlots K r p e).isEmpty <;> simp [h, ha]

theorem foldMany_a_indep {G : Type} (K : ℕ) (f f2 : ℚ → ℕ → ℕ → G → ℚ) (g : G)
    (r link : ℕ → ℕ → ℕ) (p : ℕ → ℕ → ℚ) :
    ∀ (ps : List ℕ) (st st2 : AccState), (∀ j, st.a j = st2.a j) →
      ∀ j, (ps.foldl (accumStepMany K f g r link p) st).a j
        = (ps.foldl (accumStepMany K f2 g r link p) st2).a j := by
  intro ps
  induction ps with
  | nil => intro st st2 ha j; exact ha j
  | cons e rest ih =>
      intro st st2 ha j
      rw [List.foldl_cons, List.foldl_cons]
      exact ih _ _ (accumStepMany_a_indep K f f2 g r link p st st2 ha e) j

/-- C2: the drainage-area output never depends on the supplied loss
function: in either routing mode it coincides, node by node, with the
drainage area computed under the identity loss adapter on the same
inputs.  Loss applies to discharge only, never to accumulated area. -/
theorem drainage_area_independent_of_loss_function {G : Type}
    (f : ℚ → ℕ → ℕ → G → ℚ) (g : G) (r link : ℕ → ℕ)
    (K : ℕ) (r2 link2 : ℕ → ℕ → ℕ) (p : ℕ → ℕ → ℚ)
    (Acell I : ℕ → ℚ) (s : List ℕ) (i : ℕ) :
    (runAccumOne f g r link Acell I s).a i
        = (runAccumOne (identityLoss (G := G)) g r link Acell I s).a i
    ∧ (runAccumMany K f g r2 link2 p Acell I s).a i
        = (runAccumMany K (identityLoss (G := G)) g r2 link2 p Acell I s).a i := by
  constructor
  · exact foldOne_a_indep f (identityLoss (G := G)) g r link s.reverse
      (initState Acell I) (initState Acell I) (fun _ => rfl) i
  · exact foldMany_a_indep K f (identityLoss (G := G)) g r2 link2 p s.reverse
      (initState Acell I) (initState Acell I) (fun _ => rfl) i

/-- C3 counterexample: on the spec line scenario node 4 has no cell
(A_cell is zero) yet its computed drainage area is 4, because a
zero-cell node that receives flow accumulates the areas of its donors.
This matches both the spec concrete scenario (a = [1, 2, 3, 4, 4]) and
the doctest of the source, where the open-boundary outlet shows
drainage_area 6; the claim that a is zero at every zero-cell node is
therefore false. -/
theorem zero_cell_node_nonzero_drainage_area :
    AcellLine 4 = 0
    ∧ (runAccumOne (identityLoss (G := Unit)) () rLine linkLine AcellLine ILine sLine).a 4 = 4
    ∧ (runAccumOne (identityLoss (G := Unit)) () rLine linkLine AcellLine ILine sLine).a 4 ≠ 0 := by
  have h4 : (runAccumOne (identityLoss (G := Unit)) () rLine linkLine AcellLine ILine sLine).a 4 = 4 := by
    norm_num [runAccumOne, sLine, List.foldl, accumStepOne, rLine, linkLine,
      AcellLine, ILine, initState, identityLoss]
  refine ⟨by norm_num [AcellLine], h4, ?_⟩
  rw [h4]
  norm_num

/-- C3 amended: a node with zero cell area generates no local area or
discharge, so it contributes nothing of its own to any downstream node;
if in addition no node of the run routes flow into it, its final
drainage area and discharge are both zero.  (A zero-cell node that does
receive flow accumulates its donors, as the counterexample shows, so
the original unconditional a = 0 fails.) -/
theorem zero_cell_node_without_donors_stays_zero {G : Type}
    (f : ℚ → ℕ → ℕ → G → ℚ) (g : G)
    (r link : ℕ → ℕ) (Acell I : ℕ → ℚ) (s : List ℕ) (i : ℕ)
    (hA : Acell i = 0) (hnodon : ∀ e ∈ s, r e = i → e = i)
    (K : ℕ) (r2 link2 : ℕ → ℕ → ℕ) (p : ℕ → ℕ → ℚ) (Acell2 I2 : ℕ → ℚ)
    (s2 : List ℕ) (i2 : ℕ) (hA2 : Acell2 i2 = 0)
    (hnodon2 : ∀ e ∈ s2, ∀ k ∈ activeSlots K r2 p e, r2 e k ≠ i2) :
    ((runAccumOne f g r link Acell I s).a i = 0
      ∧ (runAccumOne f g r link Acell I s).q i = 0)
    ∧ ((runAccumMany K f g r2 link2 p Acell2 I2 s2).a i2 = 0
      ∧ (runAccumMany K f g r2 link2 p Acell2 I2 s2).q i2 = 0) := by
  have hcond : ∀ e ∈ s.reverse, r e = e ∨ r e ≠ i := by
    intro e he
    rw [List.mem_reverse] at he
    by_cases hre : r e = i
    · left
      have h := hnodon e he hre
      rw [h]
      rw [h] at hre
      exact hre
    · exact Or.inr hre
  have hcond2 : ∀ e ∈ s2.reverse, ∀ k ∈ activeSlots K r2 p e, r2 e k ≠ i2 :=
    fun e he => hnodon2 e (List.mem_reverse.mp he)
  refine ⟨⟨?_, ?_⟩, ?_, ?_⟩
  · rw [runAccumOne, foldOne_a_stable f g r link s.reverse _ i hcond]
    exact hA
  · rw [runAccumOne, foldOne_q_stable f g r link s.reverse _ i hcond]
    show I i * Acell i = 0
    rw [hA, mul_zero]
  · rw [runAccumMany, foldMany_a_stable K f g r2 link2 p s2.reverse _ i2 hcond2]
    exact hA2
  · rw [runAccumMany, foldMany_q_stable K f g r2 link2 p s2.reverse _ i2 hcond2]
    show I2 i2 * Acell2 i2 = 0
    rw [hA2, mul_zero]

/-- Witness for the amended C3: node 2 of the isolated-node example
(no cell, no donors) ends with zero area and discharge, and node 3 of
the split scenario likewise in multi-receiver mode. -/
theorem zero_cell_node_without_donors_stays_zero_witness :
    (((runAccumOne (halfLoss (G := Unit)) () rIso linkIso AcellIso IIso sIso).a 2 = 0)
      ∧ (runAccumOne (halfLoss (G := Unit)) () rIso linkIso AcellIso IIso sIso).q 2 = 0)
    ∧ (((runAccumMany 2 (halfLoss (G := Unit)) () rSplit linkSplit pSplit AcellSplit ISplit sSplit).a 3 = 0)
      ∧ (runAccumMany 2 (halfLoss (G := Unit)) () rSplit linkSplit pSplit AcellSplit ISplit sSplit).q 3 = 0) :=
  zero_cell_node_without_donors_stays_zero halfLoss () rIso linkIso AcellIso IIso
    sIso 2 (by decide) (by decide)
    2 rSplit linkSplit pSplit AcellSplit ISplit sSplit 3 (by decide) (by decide)

theorem foldOne_L_identity {G : Type} (g : G) (r link : ℕ → ℕ) :
    ∀ (ps : List ℕ) (st : AccState), (∀ j, st.L j = 0) →
      ∀ j, (ps.foldl (accumStepOne (identityLoss (G := G)) g r link) st).L j = 0 := by
  intro ps
  induction ps with
  | nil => intro st h j; exact h j
  | cons e rest ih =>
      intro st h j
      rw [List.foldl_cons]
      refine ih _ ?_ j
      intro j2
      unfold accumStepOne identityLoss
      by_cases hre : r e = e
      · simp [hre, h j2]
      · by_cases hj : j2 = e <;> simp [hre, hj, h j2]

theorem foldMany_L_identity {G : Type} (K : ℕ) (g : G) (r link : ℕ → ℕ → ℕ)
    (p : ℕ → ℕ → ℚ) :
    ∀ (ps : List ℕ) (st : AccState),
      (∀ d ∈ ps, ((activeSlots K r p d).map fun k => p d k).sum = 1
        ∨ activeSlots K r p d = []) →
      (∀ j, st.L j = 0) →
      ∀ j, (ps.foldl (accumStepMany K (identityLoss (G := G)) g r link p) st).L j = 0 := by
  intro ps
  induction ps with
  | nil => intro st _ h j; exact h j
  | cons e rest ih =>
      intro st hprop h j
      rw [List.foldl_cons]
      refine ih _ (fun d hd => hprop d (List.mem_cons_of_mem e hd)) ?_ j
      intro j2
      unfold accumStepMany identityLoss
      by_cases hke : (activeSlots K r p e).isEmpty
      · simp [hke, h j2]
      · have hne : activeSlots K r p e ≠ [] := List.isEmpty_eq_false.mp (by
          cases hb : (activeSlots K r p e).isEmpty
          · rfl
          · exact absurd hb hke)
        have hsum : ((activeSlots K r p e).map fun k => p e k).sum = 1 := by
          rcases hprop e (List.mem_cons_self e rest) with h1 | h2
          · exact h1
          · exact absurd h2 hne
        by_cases hj : j2 = e
        · subst hj
          have hmul : ((activeSlots K r p j2).map fun k => st.q j2 * p j2 k).sum = st.q j2 := by
            rw [List.sum_map_mul_left, hsum, mul_one]
          simp [hke, hmul]
        · simp [hke, hj, h j2]

/-- C6: with no loss_function supplied, construction installs the
identity adapter, which returns the discharge argument unchanged for
every call; consequently an accumulation run under the identity loss
records zero loss at every node, in single-receiver mode
unconditionally and in multi-receiver mode whenever the active
proportions of each stacked node sum to one (the spec row-sum
invariant) or the node has no active slot. -/
theorem no_loss_function_is_identity_and_lossless {G : Type} (g : G)
    (Qw : ℚ) (n l : ℕ)
    (r link : ℕ → ℕ) (Acell I : ℕ → ℚ) (s : List ℕ) (i : ℕ)
    (K : ℕ) (r2 link2 : ℕ → ℕ → ℕ) (p : ℕ → ℕ → ℚ) (Acell2 I2 : ℕ → ℚ)
    (s2 : List ℕ) (i2 : ℕ)
    (hprop : ∀ d ∈ s2, ((activeSlots K r2 p d).map fun k => p d k).sum = 1
        ∨ activeSlots K r2 p d = []) :
    runLossAdapter (mkLossAdapter (G := G) none) Qw n l g = some (PyVal.pfloat Qw)
    ∧ (runAccumOne (identityLoss (G := G)) g r link Acell I s).L i = 0
    ∧ (runAccumMany K (identityLoss (G := G)) g r2 link2 p Acell2 I2 s2).L i2 = 0 := by
  refine ⟨rfl, ?_, ?_⟩
  · exact foldOne_L_identity g r link s.reverse (initState Acell I) (fun _ => rfl) i
  · exact foldMany_L_identity K g r2 link2 p s2.reverse (initState Acell2 I2)
      (fun d hd => hprop d (List.mem_reverse.mp hd)) (fun _ => rfl) i2

/-- Witness for C6 on the line and split scenarios. -/
theorem no_loss_function_is_identity_and_lossless_witness :
    runLossAdapter (mkLossAdapter (G := Unit) none) 3 1 2 () = some (PyVal.pfloat 3)
    ∧ (runAccumOne (identityLoss (G := Unit)) () rLine linkLine AcellLine ILine sLine).L 2 = 0
    ∧ (runAccumMany 2 (identityLoss (G := Unit)) () rSplit linkSplit pSplit AcellSplit ISplit sSplit).L 0 = 0 :=
  no_loss_function_is_identity_and_lossless () 3 1 2 rLine linkLine AcellLine ILine
    sLine 2 2 rSplit linkSplit pSplit AcellSplit ISplit sSplit 0 (by
      intro d hd
      simp only [sSplit, List.mem_cons, List.not_mem_nil, or_false] at hd
      rcases hd with h1 | h2 | h3 | h0
      · subst h1; right; decide
      · subst h2; right; decide
      · subst h3; right; decide
      · subst h0
        left
        norm_num [activeSlots, pSplit, rSplit, List.range_succ, List.filter_cons,
          Rat.mkRat_eq_div])

theorem donorsOf_mem {N : ℕ} {r : ℕ → ℕ} {l m : ℕ} (hm : m ∈ donorsOf N r l) :
    m < N ∧ r m = l ∧ m ≠ l := by
  simp only [donorsOf, List.mem_filter, List.mem_range, Bool.and_eq_true,
    decide_eq_true_eq] at hm
  exact ⟨hm.1, hm.2.1, hm.2.2⟩

theorem travInv_step {N : ℕ} {r : ℕ → ℕ} {l : ℕ} {pend stack : List ℕ}
    (h : TravInv N r (l :: pend) stack) :
    TravInv N r (donorsOf N r l ++ pend) (stack ++ [l]) := by
  obtain ⟨hstk, hpnd, hpe, hse⟩ := h
  rw [List.nodup_cons] at hpnd
  obtain ⟨hlN, hlstack, hlr⟩ := hpe l (List.mem_cons_self l pend)
  have hpe2 : ∀ x ∈ pend, x < N ∧ x ∉ stack ∧ (r x = x ∨ r x ∈ stack) :=
    fun x hx => hpe x (List.mem_cons_of_mem l hx)
  refine ⟨?_, ?_, ?_, ?_⟩
  · rw [List.nodup_append]
    refine ⟨hstk, List.nodup_singleton l, ?_⟩
    intro a ha hal
    rw [List.mem_singleton] at hal
    exact hlstack (hal ▸ ha)
  · rw [List.nodup_append]
    refine ⟨List.Nodup.filter _ (List.nodup_range N), hpnd.2, ?_⟩
    intro m hmdon hmpend
    obtain ⟨hmN, hrm, hml⟩ := donorsOf_mem hmdon
    rcases (hpe2 m hmpend).2.2 with hself | hsr
    · exact hml (hself.symm.trans hrm)
    · exact hlstack (hrm ▸ hsr)
  · intro x hx
    rcases List.mem_append.mp hx with hdon | hpd
    · obtain ⟨hxN, hrx, hxl⟩ := donorsOf_mem hdon
      refine ⟨hxN, ?_, Or.inr ?_⟩
      · intro hmem
        rcases List.mem_append.mp hmem with hs | he
        · exact hlstack (hrx ▸ (hse x hs).2)
        · rw [List.mem_singleton] at he
          exact hxl he
      · rw [hrx]
        exact List.mem_append.mpr (Or.inr (List.mem_singleton.mpr rfl))
    · obtain ⟨hxN, hxs, hxr⟩ := hpe2 x hpd
      refine ⟨hxN, ?_, ?_⟩
      · intro hmem
        rcases List.mem_append.mp hmem with hs | he
        · exact hxs hs
        · rw [List.mem_singleton] at he
          exact hpnd.1 (he ▸ hpd)
      · rcases hxr with h1 | h2
        · exact Or.inl h1
        · exact Or.inr (List.mem_append.mpr (Or.inl h2))
  · intro x hx
    rcases List.mem_append.mp hx with hs | he
    · obtain ⟨hxN, hxr⟩ := hse x hs
      exact ⟨hxN, List.mem_append.mpr (Or.inl hxr)⟩
    · rw [List.mem_singleton] at he
      subst he
      refine ⟨hlN, ?_⟩
      rcases hlr with h1 | h2
      · rw [h1]
        exact List.mem_append.mpr (Or.inr (List.mem_singleton.mpr rfl))
      · exact List.mem_append.mpr (Or.inl h2)

theorem bwTraverse_inv {N : ℕ} {r : ℕ → ℕ} :
    ∀ (fuel : ℕ) (pend stack : List ℕ), TravInv N r pend stack →
      (bwTraverse N r fuel pend stack).Nodup
      ∧ ∀ x ∈ bwTraverse N r fuel pend stack, x < N := by
  intro fuel
  induction fuel with
  | zero =>
      intro pend stack h
      exact ⟨h.1, fun x hx => (h.2.2.2 x hx).1⟩
  | succ fuel ih =>
      intro pend stack h
      cases pend with
      | nil =>
          simp only [bwTraverse]
          exact ⟨h.1, fun x hx => (h.2.2.2 x hx).1⟩
      | cons l pend =>
          simp only [bwTraverse]
          exact ih _ _ (travInv_step h)

theorem travInv_init (N : ℕ) (r : ℕ → ℕ) : TravInv N r (baselevelNodes N r) [] := by
  refine ⟨List.nodup_nil, List.Nodup.filter _ (List.nodup_range N), ?_, ?_⟩
  · intro x hx
    simp only [baselevelNodes, List.mem_filter, List.mem_range, decide_eq_true_eq] at hx
    exact ⟨hx.1, List.not_mem_nil x, Or.inl hx.2⟩
  · intro x hx
    exact absurd hx (List.not_mem_nil x)

theorem ordered_node_array_nodup (N : ℕ) (r : ℕ → ℕ) :
    (make_ordered_node_array N r).Nodup
    ∧ ∀ x ∈ make_ordered_node_array N r, x < N :=
  bwTraverse_inv (N + 1) (baselevelNodes N r) [] (travInv_init N r)

theorem ordered_node_array_length_le (N : ℕ) (r : ℕ → ℕ) :
    (make_ordered_node_array N r).length ≤ N := by
  obtain ⟨hnd, hlt⟩ := ordered_node_array_nodup N r
  have hsub : (make_ordered_node_array N r).toFinset ⊆ Finset.range N := by
    intro x hx
    rw [List.mem_toFinset] at hx
    exact Finset.mem_range.mpr (hlt x hx)
  have := Finset.card_le_card hsub
  rwa [List.toFinset_card_of_nodup hnd, Finset.card_range] at this

/-- C8: the engine reports an incomplete traversal instead of looping
or silently truncating.  The declared outputs include
flow__nodes_not_in_stack; the unvisited count is zero exactly when
every node id below N was placed on the traversal stack; and on the
spec two-node cycle the builder terminates with an empty stack and
unvisited count two. -/
theorem unvisited_node_count_reported :
    "flow__nodes_not_in_stack" ∈ output_var_names
    ∧ (∀ (N : ℕ) (r : ℕ → ℕ),
        unvisitedCount N r = 0 ↔ ∀ i < N, i ∈ make_ordered_node_array N r)
    ∧ unvisitedCount 2 rCycle = 2 := by
  refine ⟨by simp [output_var_names], ?_, by decide⟩
  intro N r
  obtain ⟨hnd, hlt⟩ := ordered_node_array_nodup N r
  have hlen := ordered_node_array_length_le N r
  have hsub : (make_ordered_node_array N r).toFinset ⊆ Finset.range N := by
    intro x hx
    rw [List.mem_toFinset] at hx
    exact Finset.mem_range.mpr (hlt x hx)
  constructor
  · intro h0 i hi
    have hge : N ≤ (make_ordered_node_array N r).length :=
      Nat.sub_eq_zero_iff_le.mp h0
    have hcard : (Finset.range N).card ≤ (make_ordered_node_array N r).toFinset.card := by
      rw [Finset.card_range, List.toFinset_card_of_nodup hnd]
      exact hge
    have heq := Finset.eq_of_subset_of_card_le hsub hcard
    have : i ∈ (make_ordered_node_array N r).toFinset := by
      rw [heq]
      exact Finset.mem_range.mpr hi
    rwa [List.mem_toFinset] at this
  · intro hall
    have hsub2 : Finset.range N ⊆ (make_ordered_node_array N r).toFinset := by
      intro x hx
      rw [List.mem_toFinset]
      exact hall x (Finset.mem_range.mp hx)
    have hge : N ≤ (make_ordered_node_array N r).length := by
      have := Finset.card_le_card hsub2
      rwa [Finset.card_range, List.toFinset_card_of_nodup hnd] at this
    exact Nat.sub_eq_zero_of_le hge

/-- C10: on the route-to-many path the depression finder is never
invoked, whatever was provided at construction; on the route-to-one
path with a depression finder provided, map_depressions runs before the
donor, delta and stack construction, which runs before the accumulation
pass of the same call. -/
theorem depression_finder_only_on_to_one_path :
    (∀ dfProvided updateFD : Bool,
        FlowEvent.mapDepressions ∉
          accumulateFlowTrace RouteMode.toMany dfProvided updateFD)
    ∧ (∀ updateFD : Bool,
        FlowEvent.mapDepressions ∈ accumulateFlowTrace RouteMode.toOne true updateFD
        ∧ (accumulateFlowTrace RouteMode.toOne true updateFD).indexOf
              FlowEvent.mapDepressions
            < (accumulateFlowTrace RouteMode.toOne true updateFD).indexOf
              FlowEvent.buildDonorsDeltaStack
        ∧ (accumulateFlowTrace RouteMode.toOne true updateFD).indexOf
              FlowEvent.buildDonorsDeltaStack
            < (accumulateFlowTrace RouteMode.toOne true updateFD).indexOf
              FlowEvent.accumulatePass) := by
  constructor
  · intro dfProvided updateFD
    cases dfProvided <;> cases updateFD <;> decide
  · intro updateFD
    cases updateFD <;> decide

end LossyFlowAccum
